import Mathlib

/-!
Verification development for the hermes transactional-mail dispatcher
(src/main.go).  The Go program is shallowly embedded here:

* `Json` models the values produced by Go's `encoding/json` when decoding
  into `interface{}` / `map[string]interface{}`.  JSON numbers are decoded
  by Go into `float64`; no claim exercises non-integral numerics, so the
  model carries an `Int`.
* `Node`, `scanTmpl`, `parseField` model the fragment of the Go
  `text/template` grammar that the program's templates use: literal text
  and field interpolation actions (dot-path field access).  A source the
  fragment's parser rejects models a source Go's parser rejects.
* `execNodes` models `(*Template).Execute` for that fragment with the
  default `missingkey` policy: an absent map key yields the invalid
  value, which propagates silently through further field accesses and
  prints as the placeholder string; field access through a present null
  or non-map value is a runtime execution error.  HTML mode
  applies `html/template`'s escaper to interpolated values (the actions of
  the program's templates sit in plain HTML text context; literal template
  text is trusted and emitted verbatim in both modes).  In the HTML
  pipeline an absent key reaches the escaper as an untyped nil, which
  `fmt.Sprint` renders before escaping.
* `buildMailContent`, `processRecord`, `runFrom`, `HandleRequest` mirror
  main.go lines 43-110.  `exitErrorf` (os.Exit(1)) and the nil-template
  panic both kill the process, modelled as an `Abort` value that ends the
  batch; the instrumented semantics also emits the trace of decode /
  fetch / render / dispatch calls actually performed, indexed by record.
-/

namespace Hermes

/-- Structured values as decoded by Go's encoding/json into interface
values: null, booleans, numbers, strings, arrays, objects (the object
constructor keeps the source key order of the wire text). -/
inductive Json where
  | null : Json
  | bool (b : Bool) : Json
  | num (n : Int) : Json
  | str (s : String) : Json
  | arr (xs : List Json) : Json
  | obj (kvs : List (String × Json)) : Json

/-- A parsed template node: literal text, or a field action (a dot-path
into the context mapping), as produced by text/template's parser for the
fragment the program uses. -/
inductive Node where
  | text (s : String) : Node
  | field (path : List String) : Node
deriving DecidableEq

/-- The opening-brace character (written via its code point). -/
def lbrace : Char := Char.ofNat 123

/-- The closing-brace character (written via its code point). -/
def rbrace : Char := Char.ofNat 125

/-- Characters allowed in a field-name component after the dot; Go's
lexer accepts an alphanumeric run (map keys need not start with a
letter). -/
def isIdentChar (c : Char) : Bool := c.isAlphanum || c = '_'

/-- Reads a dot-separated path of nonempty identifier components,
returning the components and the unconsumed remainder.  Arguments: the
remaining input, the current component's characters in reverse, and the
completed components in reverse. -/
def pathLoop : List Char → List Char → List String → Option (List String × List Char)
  | [], cur, acc =>
      if cur.isEmpty then none
      else some ((String.mk cur.reverse :: acc).reverse, [])
  | c :: rest, cur, acc =>
      if c = '.' then
        if cur.isEmpty then none
        else pathLoop rest [] (String.mk cur.reverse :: acc)
      else if isIdentChar c then pathLoop rest (c :: cur) acc
      else if cur.isEmpty then none
      else some ((String.mk cur.reverse :: acc).reverse, c :: rest)

/-- Parses the body of one action (the text strictly between the brace
delimiters): optional surrounding whitespace, a dot, and a field path.
Anything else is a parse error, as in text/template's lexer for this
fragment. -/
def parseField (body : List Char) : Option Node :=
  match body.dropWhile (fun c => c.isWhitespace) with
  | c :: rest =>
      if c = '.' then
        match pathLoop rest [] [] with
        | some (path, rem) =>
            if (rem.dropWhile (fun c2 => c2.isWhitespace)).isEmpty then
              some (Node.field path)
            else none
        | none => none
      else none
  | [] => none

/-- Flushes the pending literal-text accumulator (reversed characters)
onto the reversed node list. -/
def flushText (acc : List Char) (ns : List Node) : List Node :=
  if acc.isEmpty then ns else Node.text (String.mk acc.reverse) :: ns

/-- Scanner over the template source.  Arguments: remaining input, a flag
for being inside an action, the pending text-or-body accumulator
(reversed), and the nodes built so far (reversed).  An unclosed action at
end of input is a parse error, as in Go. -/
def scanTmpl : List Char → Bool → List Char → List Node → Option (List Node)
  | [], true, _, _ => none
  | [], false, acc, ns => some (flushText acc ns).reverse
  | [_], true, _, _ => none
  | [c], false, acc, ns => some (flushText (c :: acc) ns).reverse
  | c1 :: c2 :: rest, false, acc, ns =>
      if c1 = lbrace && c2 = lbrace then
        scanTmpl rest true [] (flushText acc ns)
      else scanTmpl (c2 :: rest) false (c1 :: acc) ns
  | c1 :: c2 :: rest, true, body, ns =>
      if c1 = rbrace && c2 = rbrace then
        match parseField body.reverse with
        | some n => scanTmpl rest false [] (n :: ns)
        | none => none
      else scanTmpl (c2 :: rest) true (c1 :: body) ns

/-- Models `template.New(name).Parse(src)` for the fragment: `some nodes`
when the source parses, `none` when Go's Parse would return a non-nil
error (in which case Parse returns a nil template). -/
def parseTemplate (src : String) : Option (List Node) :=
  scanTmpl src.data false [] []

/-- Result of evaluating a field access during execution: either a value,
or the invalid reflect value arising from an absent map key under the
default missingkey policy. -/
inductive FieldVal where
  | missing : FieldVal
  | val (j : Json) : FieldVal

/-- First-match association lookup (the decoder inserts with overwrite,
so this is Go map lookup). -/
def lookupCtx : List (String × Json) → String → Option Json
  | [], _ => none
  | (k, v) :: rest, key => if k = key then some v else lookupCtx rest key

/-- One step of dot-path evaluation, as in text/template's evalField:
indexing a map gives the value or (key absent) the invalid value; under
the default missingkey policy an invalid receiver silently yields the
invalid value again (evalField returns zero without error); a field
access on a present null (nil interface) is a nil-pointer execution
error, and on any other non-map value a can't-evaluate-field error. -/
def fieldStep : FieldVal → String → Except String FieldVal
  | FieldVal.missing, _ => Except.ok FieldVal.missing
  | FieldVal.val (Json.obj kvs), k =>
      Except.ok (match lookupCtx kvs k with
        | some v => FieldVal.val v
        | none => FieldVal.missing)
  | FieldVal.val Json.null, k => Except.error ("nil pointer evaluating " ++ k)
  | FieldVal.val _, k => Except.error ("can't evaluate field " ++ k)

/-- Folds `fieldStep` along a path, stopping at the first error. -/
def evalSteps : FieldVal → List String → Except String FieldVal
  | fv, [] => Except.ok fv
  | fv, k :: ks =>
      match fieldStep fv k with
      | Except.error e => Except.error e
      | Except.ok fv2 => evalSteps fv2 ks

/-- Evaluates a dot-path against the context mapping (the dot is the
context map itself). -/
def evalPath (ctx : List (String × Json)) (path : List String) : Except String FieldVal :=
  evalSteps (FieldVal.val (Json.obj ctx)) path

/-- Joins rendered pieces with single spaces, as fmt does for composite
values. -/
def joinSpace : List String → String
  | [] => ""
  | [x] => x
  | x :: xs => x ++ " " ++ joinSpace xs

mutual
/-- How fmt prints a decoded interface value (text/template prints via
fmt.Fprint): nil prints as the nil placeholder, strings verbatim,
booleans and numbers in their usual form, slices bracketed and
space-separated, maps in Go's map notation.  (Go's fmt prints map keys
sorted; the model prints them in stored order — no claim exercises
composite-value printing.) -/
def printJson : Json → String
  | Json.null => "<nil>"
  | Json.bool b => if b then "true" else "false"
  | Json.num n => toString n
  | Json.str s => s
  | Json.arr xs => "[" ++ printJsonSeq xs ++ "]"
  | Json.obj kvs => "map[" ++ printJsonPairs kvs ++ "]"

/-- Space-separated printing of a sequence of values. -/
def printJsonSeq : List Json → String
  | [] => ""
  | [x] => printJson x
  | x :: xs => printJson x ++ " " ++ printJsonSeq xs

/-- Space-separated `key:value` printing of map entries. -/
def printJsonPairs : List (String × Json) → String
  | [] => ""
  | [(k, v)] => k ++ ":" ++ printJson v
  | (k, v) :: kvs => k ++ ":" ++ printJson v ++ " " ++ printJsonPairs kvs
end

/-- The backslash character (written via its code point). -/
def bslash : Char := Char.ofNat 92

/-- The less-than sign. -/
def ltChar : Char := '<'

/-- The greater-than sign. -/
def gtChar : Char := '>'

/-- The ampersand. -/
def ampChar : Char := '&'

/-- The double quote. -/
def dqChar : Char := '"'

/-- The single quote (written via its code point). -/
def sqChar : Char := Char.ofNat 39

/-- html/template's HTML replacement table: the five markup-significant
characters become entities, NUL becomes the Unicode replacement
character, everything else passes through. -/
def escChar (c : Char) : List Char :=
  if c = ltChar then [ampChar, 'l', 't', ';']
  else if c = gtChar then [ampChar, 'g', 't', ';']
  else if c = ampChar then [ampChar, 'a', 'm', 'p', ';']
  else if c = dqChar then [ampChar, '#', '3', '4', ';']
  else if c = sqChar then [ampChar, '#', '3', '9', ';']
  else if c = Char.ofNat 0 then [Char.ofNat 0xFFFD]
  else [c]

/-- html/template's htmlEscaper applied to a string. -/
def htmlEscape (s : String) : String :=
  String.mk (s.data.foldr (fun c acc => escChar c ++ acc) [])

/-- Rendering mode of the two template passes: html/template (escaping)
for the HTML body, text/template (verbatim) for the plain-text body. -/
inductive Mode where
  | html : Mode
  | text : Mode
deriving DecidableEq

/-- The string an interpolated field value contributes to the output.
Text mode: an absent key prints text/template's placeholder, a value
prints via fmt.  HTML mode: the escaper receives an absent key as an
untyped nil (printed by fmt.Sprint, then escaped), and a value's printed
form is escaped. -/
def renderField : Mode → FieldVal → String
  | Mode.text, FieldVal.missing => "<no value>"
  | Mode.text, FieldVal.val j => printJson j
  | Mode.html, FieldVal.missing => htmlEscape "<nil>"
  | Mode.html, FieldVal.val j => htmlEscape (printJson j)

/-- Models `(*Template).Execute` on the parsed fragment: writes nodes in
order, stopping at the first field-evaluation error (which Go returns as
a non-nil error, leaving the two modes to differ only in the escaping of
interpolated values). -/
def execNodes (mode : Mode) : List Node → List (String × Json) → Except String String
  | [], _ => Except.ok ""
  | Node.text s :: rest, ctx =>
      match execNodes mode rest ctx with
      | Except.error e => Except.error e
      | Except.ok out => Except.ok (s ++ out)
  | Node.field p :: rest, ctx =>
      match evalPath ctx p with
      | Except.error e => Except.error e
      | Except.ok fv =>
          match execNodes mode rest ctx with
          | Except.error e => Except.error e
          | Except.ok out => Except.ok (renderField mode fv ++ out)

/-- The typed request one queue record decodes into (struct `mailMessage`,
main.go lines 26-36), with its json tags recorded in `setField`. -/
structure MailMessage where
  FromName : String
  FromAddress : String
  ToAddress : String
  ReplyToAddress : String
  Template : String
  Subject : String
  CC : List String
  BCC : List String
  TemplateContext : List (String × Json)

/-- The zero value of `mailMessage`, which json.Unmarshal starts from. -/
def emptyMailMessage : MailMessage :=
  ⟨"", "", "", "", "", "", [], [], []⟩

/-- json.Unmarshal of a value into a string field: a JSON string is
taken, null leaves the field unchanged (no effect, no error), any other
value is an UnmarshalTypeError. -/
def asgString (old : String) : Json → Except String String
  | Json.null => Except.ok old
  | Json.str s => Except.ok s
  | _ => Except.error "json: cannot unmarshal value into field of type string"

/-- json.Unmarshal of one array element into a string: null leaves the
fresh element at its zero value. -/
def asgStringElem : Json → Except String String
  | Json.null => Except.ok ""
  | Json.str s => Except.ok s
  | _ => Except.error "json: cannot unmarshal array element into string"

/-- Element-wise decoding of a JSON array into strings, stopping at the
first error. -/
def asgStringElems : List Json → Except String (List String)
  | [] => Except.ok []
  | j :: js =>
      match asgStringElem j with
      | Except.error e => Except.error e
      | Except.ok s =>
          match asgStringElems js with
          | Except.error e => Except.error e
          | Except.ok ss => Except.ok (s :: ss)

/-- json.Unmarshal into a []string field: an array decodes element-wise,
null sets the slice to nil, anything else is a type error. -/
def asgStringList : Json → Except String (List String)
  | Json.null => Except.ok []
  | Json.arr xs => asgStringElems xs
  | _ => Except.error "json: cannot unmarshal value into field of type []string"

/-- Go map insertion with overwrite (remove an existing binding for the
key, then append). -/
def mapInsert (kvs : List (String × Json)) (k : String) (v : Json) : List (String × Json) :=
  kvs.filter (fun p => p.1 ≠ k) ++ [(k, v)]

/-- Builds a Go map from the wire object's entries in order, later
duplicate keys overwriting earlier ones. -/
def buildCtx : List (String × Json) → List (String × Json) → List (String × Json)
  | acc, [] => acc
  | acc, (k, v) :: rest => buildCtx (mapInsert acc k v) rest

/-- json.Unmarshal into the map[string]interface field: an object decodes
to a map (duplicate keys at this level overwrite; nested objects are kept
as decoded values), null sets the map to nil, anything else is a type
error. -/
def asgContext : Json → Except String (List (String × Json))
  | Json.null => Except.ok []
  | Json.obj kvs => Except.ok (buildCtx [] kvs)
  | _ => Except.error "json: cannot unmarshal value into field of type map"

/-- ASCII case folding of a wire key, character by character. -/
def foldKey (s : String) : String :=
  String.mk (s.data.map Char.toLower)

/-- Assigns one wire-object entry to the struct field whose json tag
matches the key: json.Unmarshal prefers an exact tag match and otherwise
accepts a case-insensitive one; the nine tags here are pairwise distinct
under case folding, so the combined rule is comparing the case-folded
key against each tag.  (ASCII case folding; Go's fold additionally
equates the two special Unicode kelvin-sign and long-s characters, not
modelled.)  Keys matching no field are ignored. -/
def setField (m : MailMessage) (key0 : String) (v : Json) : Except String MailMessage :=
  let key := foldKey key0
  if key = "from_name" then
    (asgString m.FromName v).map (fun s => { m with FromName := s })
  else if key = "from_address" then
    (asgString m.FromAddress v).map (fun s => { m with FromAddress := s })
  else if key = "to_address" then
    (asgString m.ToAddress v).map (fun s => { m with ToAddress := s })
  else if key = "reply_to" then
    (asgString m.ReplyToAddress v).map (fun s => { m with ReplyToAddress := s })
  else if key = "template_name" then
    (asgString m.Template v).map (fun s => { m with Template := s })
  else if key = "subject" then
    (asgString m.Subject v).map (fun s => { m with Subject := s })
  else if key = "cc" then
    (asgStringList v).map (fun l => { m with CC := l })
  else if key = "bcc" then
    (asgStringList v).map (fun l => { m with BCC := l })
  else if key = "template_context" then
    (asgContext v).map (fun c => { m with TemplateContext := c })
  else Except.ok m

/-- Assigns the wire object's entries in order (later duplicates
overwrite), stopping at the first error — Go keeps decoding but reports a
non-nil error, and the caller discards the struct on any error, so the
stop point is unobservable. -/
def setFields : MailMessage → List (String × Json) → Except String MailMessage
  | m, [] => Except.ok m
  | m, p :: ps =>
      match setField m p.1 p.2 with
      | Except.error e => Except.error e
      | Except.ok m2 => setFields m2 ps

/-- Models `json.Unmarshal([]byte(message.Body), &mailMsg)` (main.go
line 95).  The record body is carried as `Option Json`: `none` stands for
a body that is not syntactically valid JSON (Unmarshal's SyntaxError).
A JSON object populates the struct field-by-field; a top-level null is a
no-op succeeding with the zero struct; any other top-level value is an
UnmarshalTypeError. -/
def unmarshal : Option Json → Except String MailMessage
  | none => Except.error "invalid character in JSON input"
  | some (Json.obj kvs) => setFields emptyMailMessage kvs
  | some Json.null => Except.ok emptyMailMessage
  | some _ => Except.error "json: cannot unmarshal value into Go value of type mailMessage"

/-- Escapes backslash and double quote inside a quoted display name, as
gomail does byte-by-byte. -/
def escapeQuoted (name : String) : String :=
  String.mk (name.data.foldr
    (fun c acc =>
      if c = dqChar || c = bslash then bslash :: c :: acc else c :: acc)
    [])

/-- gomail's `(*Message).FormatAddress`: with an empty display name the
address is returned untouched; a nonempty plain-ASCII display name is
emitted as a quoted string before the angle-bracketed address.  (gomail's
MIME B/Q-encoded branches for names that need encoding are outside the
model: every call site in main.go passes the empty name.) -/
def FormatAddress (address name : String) : String :=
  if name = "" then address
  else "\"" ++ escapeQuoted name ++ "\"" ++ " <" ++ address ++ ">"

/-- The CC/BCC formatting loops of main.go lines 61-69: a fresh slice of
the same length, element i set to the formatted form of input element i
with an empty display name. -/
def formatAll (xs : List String) : List String :=
  xs.map (fun a => FormatAddress a "")

/-- The observable content of the gomail message `buildMailContent`
returns: both bodies, the From address header's two components, and the
To / Subject / Cc / Bcc / Reply-To header values set on main.go
lines 71-78. -/
structure ComposedMessage where
  textBody : String
  htmlBody : String
  fromAddress : String
  fromName : String
  toHeader : String
  subject : String
  cc : List String
  bcc : List String
  replyTo : String

/-- The calls a record's processing performs, in program order. -/
inductive Step where
  | decode : Step
  | fetchHtml : Step
  | fetchTxt : Step
  | renderHtml : Step
  | renderTxt : Step
  | dispatch : Step
deriving DecidableEq

/-- How a record's processing kills the process: `exitErrorf` (main.go
lines 38-41, os.Exit(1)) on a decode, render or transport error; a
storage failure inside the connector; or the nil-pointer panic from
executing a template whose Parse error was discarded on lines 46-47. -/
inductive Abort where
  | decodeError : Abort
  | storageError : Abort
  | htmlNilTemplatePanic : Abort
  | htmlRenderError : Abort
  | txtNilTemplatePanic : Abort
  | txtRenderError : Abort
  | transportError : Abort
  | configError : Abort
deriving DecidableEq

/-- The collaborators one invocation talks to.

`store` — Modelled from the spec: the repository's
`storageconnector.GetTemplateContent` is not under src/; per §6 it is
synchronous and "assumed to always return content or fail the whole
record", so a storage failure is an error that aborts the record (and,
by the fail-fast policy, the batch).

`transport` — gomail's `DialAndSend` (external library performing
network delivery): an oracle returning success or failure per composed
message.

`cfgOk` — whether `env.Parse` succeeds on the process environment
(main.go lines 85-88; a failure calls `exitErrorf`). -/
structure World where
  cfgOk : Bool
  store : String → Except Unit String
  transport : ComposedMessage → Except Unit Unit

/-- main.go lines 43-81.  Fetches the two template sources by the fixed
suffix conventions, parses them with the parse errors DISCARDED (the
`htmlTmpl, _ :=` / `txtTmpl, _ :=` assignments), executes the HTML
template then the text template (a Parse failure left a nil template, so
Execute panics; an execution error calls `exitErrorf`), formats CC/BCC,
and assembles the message.  Also returns the calls performed, in
order. -/
def buildMailContent (store : String → Except Unit String) (m : MailMessage) :
    List Step × Except Abort ComposedMessage :=
  match store (m.Template ++ ".html.template") with
  | Except.error _ => ([Step.fetchHtml], Except.error Abort.storageError)
  | Except.ok htmlSrc =>
    match store (m.Template ++ ".txt.template") with
    | Except.error _ => ([Step.fetchHtml, Step.fetchTxt], Except.error Abort.storageError)
    | Except.ok txtSrc =>
      match parseTemplate htmlSrc with
      | none =>
          ([Step.fetchHtml, Step.fetchTxt, Step.renderHtml],
           Except.error Abort.htmlNilTemplatePanic)
      | some htmlTmpl =>
        match execNodes Mode.html htmlTmpl m.TemplateContext with
        | Except.error _ =>
            ([Step.fetchHtml, Step.fetchTxt, Step.renderHtml],
             Except.error Abort.htmlRenderError)
        | Except.ok htmlBody =>
          match parseTemplate txtSrc with
          | none =>
              ([Step.fetchHtml, Step.fetchTxt, Step.renderHtml, Step.renderTxt],
               Except.error Abort.txtNilTemplatePanic)
          | some txtTmpl =>
            match execNodes Mode.text txtTmpl m.TemplateContext with
            | Except.error _ =>
                ([Step.fetchHtml, Step.fetchTxt, Step.renderHtml, Step.renderTxt],
                 Except.error Abort.txtRenderError)
            | Except.ok txtBody =>
                ([Step.fetchHtml, Step.fetchTxt, Step.renderHtml, Step.renderTxt],
                 Except.ok
                   { textBody := txtBody
                     htmlBody := htmlBody
                     fromAddress := m.FromAddress
                     fromName := m.FromName
                     toHeader := m.ToAddress
                     subject := m.Subject
                     cc := formatAll m.CC
                     bcc := formatAll m.BCC
                     replyTo := m.ReplyToAddress })

/-- One iteration of the record loop (main.go lines 92-107): decode, then
build the mail content, then dispatch it through the transport.  Returns
the calls performed and `some a` when the process died with abort
`a`. -/
def processRecord (w : World) (body : Option Json) : List Step × Option Abort :=
  match unmarshal body with
  | Except.error _ => ([Step.decode], some Abort.decodeError)
  | Except.ok m =>
    match buildMailContent w.store m with
    | (steps, Except.error a) => (Step.decode :: steps, some a)
    | (steps, Except.ok msg) =>
      match w.transport msg with
      | Except.error _ =>
          (Step.decode :: steps ++ [Step.dispatch], some Abort.transportError)
      | Except.ok _ =>
          (Step.decode :: steps ++ [Step.dispatch], none)

/-- How one invocation ends: the handler function returns (with the Go
error value it returns), or the process dies while handling record `idx`,
or it dies parsing the configuration before the loop. -/
inductive HandlerResult where
  | returned (err : Option String) : HandlerResult
  | abortedAt (idx : Nat) (a : Abort) : HandlerResult
  | abortedConfig : HandlerResult
deriving DecidableEq

/-- The record loop from record index `k` on: each record's calls are
tagged with its index; the first abort ends the run (os.Exit / panic
takes the whole process, so no later record is touched); if every record
succeeds the handler returns nil (main.go line 109). -/
def runFrom (w : World) : Nat → List (Option Json) → List (Nat × Step) × HandlerResult
  | _, [] => ([], HandlerResult.returned none)
  | k, b :: rest =>
    match processRecord w b with
    | (steps, some a) => (steps.map (fun s => (k, s)), HandlerResult.abortedAt k a)
    | (steps, none) =>
      match runFrom w (k + 1) rest with
      | (evs, res) => (steps.map (fun s => (k, s)) ++ evs, res)

/-- main.go lines 84-110: parse the configuration (exit on failure),
then run the record loop over the batch.  Returns the full trace of
per-record calls and how the invocation ended. -/
def HandleRequest (w : World) (records : List (Option Json)) :
    List (Nat × Step) × HandlerResult :=
  if w.cfgOk then runFrom w 0 records else ([], HandlerResult.abortedConfig)

/-- A healthy world: configuration parses, storage serves a constant
literal template, the transport accepts everything. -/
def okWorld : World :=
  ⟨true, fun _ => Except.ok "welcome", fun _ => Except.ok ()⟩

/-- A wire body with all request fields present. -/
def sampleBody : Option Json :=
  some (Json.obj
    [("from_name", Json.str "Ops"),
     ("from_address", Json.str "ops@example.org"),
     ("to_address", Json.str "dst@example.org"),
     ("reply_to", Json.str "reply@example.org"),
     ("template_name", Json.str "welcome"),
     ("subject", Json.str "Hello")])

/-- The request `sampleBody` decodes to. -/
def sampleMsg : MailMessage :=
  ⟨"Ops", "ops@example.org", "dst@example.org", "reply@example.org",
   "welcome", "Hello", [], [], []⟩

/-- Storage serving a constant literal template. -/
def sampleStore : String → Except Unit String :=
  fun _ => Except.ok "Body text"

/-- The message `buildMailContent sampleStore sampleMsg` assembles. -/
def sampleComposed : ComposedMessage :=
  ⟨"Body text", "Body text", "ops@example.org", "Ops", "dst@example.org",
   "Hello", [], [], "reply@example.org"⟩

theorem fieldStep_obj (kvs : List (String × Json)) (k : String) :
    fieldStep (FieldVal.val (Json.obj kvs)) k =
      Except.ok (match lookupCtx kvs k with
        | some v => FieldVal.val v
        | none => FieldVal.missing) := rfl

theorem strAppendNil (s : String) : s ++ "" = s := by
  cases s with
  | mk l =>
    show String.mk (l ++ []) = String.mk l
    rw [List.append_nil]

theorem runFrom_abort_ge (w : World) :
    ∀ (rs : List (Option Json)) (k0 k : Nat) (a : Abort),
      (runFrom w k0 rs).2 = HandlerResult.abortedAt k a → k0 ≤ k := by
  intro rs
  induction rs with
  | nil => intro k0 k a h; simp [runFrom] at h
  | cons b rest ih =>
    intro k0 k a h
    rw [runFrom] at h
    rcases hp : processRecord w b with ⟨steps, r⟩
    rw [hp] at h
    cases r with
    | some a2 =>
        have h2 : HandlerResult.abortedAt k0 a2 = HandlerResult.abortedAt k a := h
        injection h2 with h3 h4
        omega
    | none =>
        rcases hr : runFrom w (k0 + 1) rest with ⟨evs, res⟩
        rw [hr] at h
        have h2 : res = HandlerResult.abortedAt k a := h
        have h3 : (runFrom w (k0 + 1) rest).2 = HandlerResult.abortedAt k a := by
          rw [hr]; exact h2
        exact Nat.le_of_succ_le (ih (k0 + 1) k a h3)

theorem runFrom_abort_events (w : World) :
    ∀ (rs : List (Option Json)) (k0 : Nat) (tr : List (Nat × Step)) (k : Nat) (a : Abort),
      runFrom w k0 rs = (tr, HandlerResult.abortedAt k a) →
      ∀ ev ∈ tr, ev.1 ≤ k := by
  intro rs
  induction rs with
  | nil => intro k0 tr k a h; simp [runFrom] at h
  | cons b rest ih =>
    intro k0 tr k a h
    rw [runFrom] at h
    rcases hp : processRecord w b with ⟨steps, r⟩
    rw [hp] at h
    cases r with
    | some a2 =>
        have h2 : (steps.map (fun s => (k0, s)), HandlerResult.abortedAt k0 a2) =
            (tr, HandlerResult.abortedAt k a) := h
        injection h2 with htr hres
        injection hres with hk ha
        intro ev hev
        rw [← htr] at hev
        simp only [List.mem_map] at hev
        obtain ⟨s, -, hs⟩ := hev
        rw [← hs, ← hk]
    | none =>
        rcases hr : runFrom w (k0 + 1) rest with ⟨evs, res⟩
        rw [hr] at h
        have h2 : (steps.map (fun s => (k0, s)) ++ evs, res) =
            (tr, HandlerResult.abortedAt k a) := h
        injection h2 with htr hres
        have hres2 : (runFrom w (k0 + 1) rest).2 = HandlerResult.abortedAt k a := by
          rw [hr]; exact hres
        have hge : k0 + 1 ≤ k := runFrom_abort_ge w rest (k0 + 1) k a hres2
        intro ev hev
        rw [← htr] at hev
        rcases List.mem_append.mp hev with hl | hrt
        · simp only [List.mem_map] at hl
          obtain ⟨s, -, hs⟩ := hl
          rw [← hs]
          exact Nat.le_of_succ_le hge
        · exact ih (k0 + 1) evs k a (by rw [hr, hres]) ev hrt

theorem runFrom_event_src (w : World) :
    ∀ (rs : List (Option Json)) (k0 k : Nat) (s : Step),
      (k, s) ∈ (runFrom w k0 rs).1 →
      ∃ b, rs.get? (k - k0) = some b ∧ s ∈ (processRecord w b).1 ∧ k0 ≤ k := by
  intro rs
  induction rs with
  | nil => intro k0 k s h; simp [runFrom] at h
  | cons b rest ih =>
    intro k0 k s h
    rw [runFrom] at h
    rcases hp : processRecord w b with ⟨steps, r⟩
    rw [hp] at h
    cases r with
    | some a2 =>
        have h2 : (k, s) ∈ steps.map (fun s => (k0, s)) := h
        simp only [List.mem_map] at h2
        obtain ⟨s2, hs2, heq⟩ := h2
        injection heq with hk hs
        refine ⟨b, ?_, ?_, ?_⟩
        · rw [← hk, Nat.sub_self]; rfl
        · rw [hp, ← hs]; exact hs2
        · rw [← hk]
    | none =>
        rcases hr : runFrom w (k0 + 1) rest with ⟨evs, res⟩
        rw [hr] at h
        have h2 : (k, s) ∈ steps.map (fun s => (k0, s)) ++ evs := h
        rcases List.mem_append.mp h2 with hl | hrt
        · simp only [List.mem_map] at hl
          obtain ⟨s2, hs2, heq⟩ := hl
          injection heq with hk hs
          refine ⟨b, ?_, ?_, ?_⟩
          · rw [← hk, Nat.sub_self]; rfl
          · rw [hp, ← hs]; exact hs2
          · rw [← hk]
        · have hrt2 : (k, s) ∈ (runFrom w (k0 + 1) rest).1 := by
            rw [hr]; exact hrt
          obtain ⟨b2, hb2, hmem, hge⟩ := ih (k0 + 1) k s hrt2
          refine ⟨b2, ?_, hmem, Nat.le_of_succ_le hge⟩
          have harith : k - k0 = (k - (k0 + 1)) + 1 := by omega
          rw [harith]
          simpa using hb2

theorem runFrom_returned_none (w : World) :
    ∀ (rs : List (Option Json)) (k0 : Nat) (o : Option String),
      (runFrom w k0 rs).2 = HandlerResult.returned o → o = none := by
  intro rs
  induction rs with
  | nil =>
      intro k0 o h
      rw [runFrom] at h
      cases h
      rfl
  | cons b rest ih =>
    intro k0 o h
    rw [runFrom] at h
    rcases hp : processRecord w b with ⟨steps, r⟩
    rw [hp] at h
    cases r with
    | some a2 =>
        have h2 : HandlerResult.abortedAt k0 a2 = HandlerResult.returned o := h
        exact absurd h2 (by simp)
    | none =>
        rcases hr : runFrom w (k0 + 1) rest with ⟨evs, res⟩
        rw [hr] at h
        have h2 : res = HandlerResult.returned o := h
        exact ih (k0 + 1) o (by rw [hr]; exact h2)

/-- C1: fail-fast over the batch — if the invocation dies while handling
record k (any failing step kills the process via os.Exit or a panic),
then every decode, fetch, render and dispatch call in the invocation's
trace belongs to a record of index at most k: no later record is decoded,
rendered or dispatched. -/
theorem fail_fast (w : World) (records : List (Option Json))
    (tr : List (Nat × Step)) (k : Nat) (a : Abort)
    (h : HandleRequest w records = (tr, HandlerResult.abortedAt k a)) :
    ∀ ev ∈ tr, ev.1 ≤ k := by
  unfold HandleRequest at h
  by_cases hc : w.cfgOk
  · rw [if_pos hc] at h
    exact runFrom_abort_events w records 0 tr k a h
  · rw [if_neg hc] at h
    simp at h

theorem fail_fast_witness :
    HandleRequest okWorld [none, some (Json.obj [])] =
      ([(0, Step.decode)], HandlerResult.abortedAt 0 Abort.decodeError) ∧
    ∀ ev ∈ [((0 : Nat), Step.decode)], ev.1 ≤ 0 :=
  ⟨rfl,
   fail_fast okWorld [none, some (Json.obj [])] [(0, Step.decode)] 0
     Abort.decodeError rfl⟩

/-- C2: short-circuit on decode — a record whose body is not valid JSON
makes `json.Unmarshal` fail, and the only call the invocation ever
performs for that record is the decode attempt itself: no template fetch,
render or dispatch call carries its index. -/
theorem decode_short_circuit (w : World) (records : List (Option Json)) (k : Nat)
    (h : records.get? k = some none) :
    unmarshal none = Except.error "invalid character in JSON input" ∧
    ∀ s : Step, (k, s) ∈ (HandleRequest w records).1 → s = Step.decode := by
  refine ⟨rfl, ?_⟩
  intro s hs
  unfold HandleRequest at hs
  by_cases hc : w.cfgOk
  · rw [if_pos hc] at hs
    obtain ⟨b, hb, hmem, -⟩ := runFrom_event_src w records 0 k s hs
    rw [Nat.sub_zero, h] at hb
    injection hb with hb2
    rw [← hb2] at hmem
    simpa [processRecord, unmarshal] using hmem
  · rw [if_neg hc] at hs
    simp at hs

theorem decode_short_circuit_witness :
    [none, some (Json.obj [])].get? 0 = some (none : Option Json) ∧
    (unmarshal none = Except.error "invalid character in JSON input" ∧
     ∀ s : Step,
       (0, s) ∈ (HandleRequest okWorld [none, some (Json.obj [])]).1 →
       s = Step.decode) :=
  ⟨rfl, decode_short_circuit okWorld [none, some (Json.obj [])] 0 rfl⟩

/-- C3: assembly identity — for a record that decodes to a request and
whose templates fetch, parse and render successfully, the composed
message's To, Subject and Reply-To header values are exactly the
request's to_address, subject and reply_to fields. -/
theorem assemble_identity (store : String → Except Unit String)
    (body : Option Json) (m : MailMessage) (tr : List Step) (msg : ComposedMessage)
    (_hdec : unmarshal body = Except.ok m)
    (hbuild : buildMailContent store m = (tr, Except.ok msg)) :
    msg.toHeader = m.ToAddress ∧ msg.subject = m.Subject ∧
    msg.replyTo = m.ReplyToAddress := by
  unfold buildMailContent at hbuild
  repeat' split at hbuild
  all_goals
    injection hbuild with htr hmsg
  all_goals
    first
      | exact Except.noConfusion hmsg
      | (injection hmsg with hmsg2
         rw [← hmsg2]
         exact ⟨rfl, rfl, rfl⟩)

theorem assemble_identity_witness :
    unmarshal sampleBody = Except.ok sampleMsg ∧
    buildMailContent sampleStore sampleMsg =
      ([Step.fetchHtml, Step.fetchTxt, Step.renderHtml, Step.renderTxt],
       Except.ok sampleComposed) ∧
    (sampleComposed.toHeader = sampleMsg.ToAddress ∧
     sampleComposed.subject = sampleMsg.Subject ∧
     sampleComposed.replyTo = sampleMsg.ReplyToAddress) :=
  ⟨rfl, rfl,
   assemble_identity sampleStore sampleBody sampleMsg
     [Step.fetchHtml, Step.fetchTxt, Step.renderHtml, Step.renderTxt]
     sampleComposed rfl rfl⟩

/-- C5: evaluation of the code at the failing input of the
discarded-parse-error bug — the template source consisting of a single
unclosed action delimiter does not parse (Go's Parse returns an error and
a nil template), yet `buildMailContent` discards that error and reaches
Execute on the nil template, so the record dies with a nil-pointer panic
rather than a surfaced template-parse error. -/
theorem discarded_parse_failure :
    parseTemplate "\x7b\x7b" = none ∧
    buildMailContent (fun _ => Except.ok "\x7b\x7b") emptyMailMessage =
      ([Step.fetchHtml, Step.fetchTxt, Step.renderHtml],
       Except.error Abort.htmlNilTemplatePanic) :=
  ⟨rfl, rfl⟩

/-- C6 counterexample: a valid template whose referenced field is absent
from the context renders without any error — the record is not aborted;
the text body silently carries the placeholder and the batch goes on to
assembly. -/
theorem missing_field_renders :
    parseTemplate "Hi \x7b\x7b.name\x7d\x7d" =
      some [Node.text "Hi ", Node.field ["name"]] ∧
    buildMailContent (fun _ => Except.ok "Hi \x7b\x7b.name\x7d\x7d")
        emptyMailMessage =
      ([Step.fetchHtml, Step.fetchTxt, Step.renderHtml, Step.renderTxt],
       Except.ok
         (⟨"Hi <no value>", "Hi &lt;nil&gt;", "", "", "", "", [], [], ""⟩ :
           ComposedMessage)) :=
  ⟨rfl, rfl⟩

/-- C6 as amended: under the default missing-key policy, rendering a
template that references an absent field SUCCEEDS — the absent key's
invalid value propagates silently, even through a nested path continuing
past the absent key, and prints as the placeholder (text mode; the
escaper receives it as nil in HTML mode) — rather than failing with a
render error. -/
theorem missing_field_policy (ctx : List (String × Json)) (k a b : String)
    (h : lookupCtx ctx k = none) (h2 : lookupCtx ctx a = none) :
    execNodes Mode.text [Node.field [k]] ctx = Except.ok "<no value>" ∧
    execNodes Mode.text [Node.field [a, b]] ctx = Except.ok "<no value>" ∧
    execNodes Mode.html [Node.field [k]] ctx = Except.ok (htmlEscape "<nil>") := by
  have hp1 : evalPath ctx [k] = Except.ok FieldVal.missing := by
    show (match fieldStep (FieldVal.val (Json.obj ctx)) k with
      | Except.error e => Except.error e
      | Except.ok fv2 => evalSteps fv2 []) = _
    rw [fieldStep_obj, h]
    rfl
  have hp2 : evalPath ctx [a, b] = Except.ok FieldVal.missing := by
    show (match fieldStep (FieldVal.val (Json.obj ctx)) a with
      | Except.error e => Except.error e
      | Except.ok fv2 => evalSteps fv2 [b]) = _
    rw [fieldStep_obj, h2]
    rfl
  refine ⟨?_, ?_, ?_⟩
  · show (match evalPath ctx [k] with
      | Except.error e => Except.error e
      | Except.ok fv =>
          match execNodes Mode.text [] ctx with
          | Except.error e => Except.error e
          | Except.ok out => Except.ok (renderField Mode.text fv ++ out)) = _
    rw [hp1]
    show Except.ok (renderField Mode.text FieldVal.missing ++ "") = _
    rw [strAppendNil]
    rfl
  · show (match evalPath ctx [a, b] with
      | Except.error e => Except.error e
      | Except.ok fv =>
          match execNodes Mode.text [] ctx with
          | Except.error e => Except.error e
          | Except.ok out => Except.ok (renderField Mode.text fv ++ out)) = _
    rw [hp2]
    show Except.ok (renderField Mode.text FieldVal.missing ++ "") = _
    rw [strAppendNil]
    rfl
  · show (match evalPath ctx [k] with
      | Except.error e => Except.error e
      | Except.ok fv =>
          match execNodes Mode.html [] ctx with
          | Except.error e => Except.error e
          | Except.ok out => Except.ok (renderField Mode.html fv ++ out)) = _
    rw [hp1]
    show Except.ok (renderField Mode.html FieldVal.missing ++ "") = _
    rw [strAppendNil]
    rfl

theorem missing_field_policy_witness :
    lookupCtx [] "name" = none ∧ lookupCtx [] "a" = none ∧
    (execNodes Mode.text [Node.field ["name"]] [] = Except.ok "<no value>" ∧
     execNodes Mode.text [Node.field ["a", "b"]] [] = Except.ok "<no value>" ∧
     execNodes Mode.html [Node.field ["name"]] [] =
       Except.ok (htmlEscape "<nil>")) :=
  ⟨rfl, rfl, missing_field_policy [] "name" "a" "b" rfl rfl⟩

/-- C7 counterexample: the empty JSON object decodes without error to a
request whose from_address, to_address and reply_to are all empty, and
that request travels the whole pipeline — its dispatch call appears in
the invocation's trace — so decoded requests are NOT guaranteed
syntactically non-empty address fields. -/
theorem empty_fields_dispatched :
    unmarshal (some (Json.obj [])) = Except.ok emptyMailMessage ∧
    emptyMailMessage.FromAddress = "" ∧
    emptyMailMessage.ToAddress = "" ∧
    emptyMailMessage.ReplyToAddress = "" ∧
    (0, Step.dispatch) ∈ (HandleRequest okWorld [some (Json.obj [])]).1 := by
  refine ⟨rfl, rfl, rfl, rfl, ?_⟩
  have h : (HandleRequest okWorld [some (Json.obj [])]).1 =
      [(0, Step.decode), (0, Step.fetchHtml), (0, Step.fetchTxt),
       (0, Step.renderHtml), (0, Step.renderTxt), (0, Step.dispatch)] := rfl
  rw [h]
  simp

/-- C7 as amended: decoding is all-or-nothing with respect to the
downstream pipeline — any fetch, render or dispatch call for a record
implies that record's body decoded without error (on a decode error the
process exits before any later step) — but no non-emptiness of
from_address, to_address or reply_to is validated. -/
theorem downstream_implies_decoded (w : World) (records : List (Option Json))
    (k : Nat) (s : Step) (b : Option Json)
    (hb : records.get? k = some b)
    (hev : (k, s) ∈ (HandleRequest w records).1)
    (hs : s ≠ Step.decode) :
    ∃ m, unmarshal b = Except.ok m := by
  unfold HandleRequest at hev
  by_cases hc : w.cfgOk
  · rw [if_pos hc] at hev
    obtain ⟨b2, hb2, hmem, -⟩ := runFrom_event_src w records 0 k s hev
    rw [Nat.sub_zero, hb] at hb2
    injection hb2 with hb3
    rw [← hb3] at hmem
    rcases hu : unmarshal b with e | m
    · rw [processRecord, hu] at hmem
      have hmem2 : s ∈ [Step.decode] := hmem
      simp at hmem2
      exact absurd hmem2 hs
    · exact ⟨m, rfl⟩
  · rw [if_neg hc] at hev
    simp at hev

theorem downstream_implies_decoded_witness :
    [some (Json.obj [])].get? 0 = some (some (Json.obj [])) ∧
    (0, Step.dispatch) ∈ (HandleRequest okWorld [some (Json.obj [])]).1 ∧
    ∃ m, unmarshal (some (Json.obj [])) = Except.ok m := by
  have hm : (0, Step.dispatch) ∈ (HandleRequest okWorld [some (Json.obj [])]).1 := by
    have h : (HandleRequest okWorld [some (Json.obj [])]).1 =
        [(0, Step.decode), (0, Step.fetchHtml), (0, Step.fetchTxt),
         (0, Step.renderHtml), (0, Step.renderTxt), (0, Step.dispatch)] := rfl
    rw [h]
    simp
  exact ⟨rfl, hm,
    downstream_implies_decoded okWorld [some (Json.obj [])] 0 Step.dispatch
      (some (Json.obj [])) rfl hm (by simp)⟩

/-- C8: address formatting is pointwise — the CC/BCC loops produce an
output of the same length with elements in the same order, element i
being the formatted form (empty display name) of input element i, and
the empty input yields the empty output. -/
theorem format_all_pointwise :
    formatAll [] = [] ∧
    (∀ xs : List String, (formatAll xs).length = xs.length) ∧
    (∀ (xs : List String) (i : Nat),
      (formatAll xs).get? i = (xs.get? i).map (fun a => FormatAddress a "")) := by
  refine ⟨rfl, ?_, ?_⟩
  · intro xs
    simp [formatAll]
  · intro xs i
    simp [formatAll]

/-- C9: the handler's Go error return is always nil — every failure path
terminates the process (os.Exit or panic) instead of returning, so if the
invocation returns at all it returns nil. -/
theorem handler_returns_nil (w : World) (records : List (Option Json))
    (o : Option String)
    (h : (HandleRequest w records).2 = HandlerResult.returned o) : o = none := by
  unfold HandleRequest at h
  by_cases hc : w.cfgOk
  · rw [if_pos hc] at h
    exact runFrom_returned_none w records 0 o h
  · rw [if_neg hc] at h
    simp at h

theorem handler_returns_nil_witness :
    (HandleRequest okWorld []).2 = HandlerResult.returned none ∧
    (none : Option String) = none :=
  ⟨rfl, handler_returns_nil okWorld [] none rfl⟩

end Hermes
